import Mathlib

/-!
Verification of the push/pump engine of `InflatingTransform` (src/index.js).

The engine drains a lazy, possibly asynchronous sequence of produced items
(a JS generator) into a flow-controlled sink (`this.push` of the Readable
side), suspending on a full buffer until a one-shot `ready` event fires, and
invoking one completion callback when the sequence ends or errors.

The shallow embedding below models one pump invocation (`_push` over one
generator and one callback) as a deterministic interpreter over three
oracles, each a finite script:
  * the generator's behaviour: what each call to `generator.next()` does
    (throw, return a plain `IteratorResult`, return an `IteratorResult`
    holding a promise, or return a promise of an `IteratorResult`);
  * the sink's capacity answers: the boolean returned by each `this.push`
    of a non-null chunk (an exhausted script answers `true`);
  * the completion callback's behaviour: whether its i-th invocation throws
    (an exhausted script means the callback returns normally).
The interpreter records the observable events (sink calls, callback
invocations, listener registration, the `ready` firing) as a trace.

JavaScript promises here resolve in a single-threaded event loop in which a
pump invocation has at most one pending task at a time (either one promise
chain built by `promiseToPush`, or one registered `ready` listener), so the
interpreter can process a settled promise's chain at the point the run would
otherwise go idle without reordering any observable event.  The source's
trampoline is control-flow neutral (it just invokes returned thunks), so the
interpreter recurses where the source returns a thunk to the trampoline; the
trampoline itself is embedded separately (see `trampoline` below) from
src/index.js lines 334-340.

Generators are modelled through their documented yield type
(`InflatedData<B> | Promise<InflatedData<B>> | null`, src/index.js lines
19 and 27); the value accompanying `done: true` is ignored by the code, so
it is modelled by the same type.
-/

/-- One chunk of produced data: `InflatedData<B>` of src/index.js (a chunk
payload plus an optional encoding hint), with the payload and the encoding
abstracted to numbers. -/
structure InflatedData where
  chunk : Nat
  encoding : Option Nat
  deriving DecidableEq, Repr

/-- A value in a generator's `value` slot once promises are resolved:
either an `InflatedData` object or the closing sentinel `null`
(`none` stands for `null`). -/
abbrev YieldValue := Option InflatedData

/-- The outcome a JS promise is fated to settle with: it either resolves
with a value or rejects with an error (errors are abstracted to numbers). -/
inductive Promise (α : Type) where
  | resolves (a : α)
  | rejects (e : Nat)
  deriving DecidableEq, Repr

/-- Functorial action on the resolved value; rejection passes through.
Models chaining a pure `.then` stage onto a promise. -/
def Promise.map {α β : Type} (f : α → β) : Promise α → Promise β
  | Promise.resolves a => Promise.resolves (f a)
  | Promise.rejects e => Promise.rejects e

/-- What one call to `generator.next()` does.  The four constructors match
the four cases `_pushNextValue` (src/index.js lines 250-267) distinguishes:
a synchronous throw (the `catch`), a plain `IteratorResult`, an
`IteratorResult` whose `value` is a promise (a synchronous generator that
yielded a promise), and a promise of an `IteratorResult` (an async
generator). -/
inductive GenStep where
  | throws (e : Nat)
  | result (done : Bool) (value : YieldValue)
  | resultPromise (done : Bool) (p : Promise YieldValue)
  | asyncResult (p : Promise (Bool × YieldValue))
  deriving DecidableEq, Repr

/-- The status of the Readable stream buffer, src/index.js lines 349-353. -/
inductive ReadableBufferStatus where
  | NOT_FULL
  | FULL
  | FINISHED
  deriving DecidableEq, Repr

/-- Mirrors `isFull` (src/index.js line 356). -/
def isFull (status : ReadableBufferStatus) : Bool :=
  status == ReadableBufferStatus.FULL

/-- Mirrors `isNotFull` (src/index.js line 359). -/
def isNotFull (status : ReadableBufferStatus) : Bool :=
  status == ReadableBufferStatus.NOT_FULL

/-- Mirrors `toIteratorResult` (src/index.js lines 366-369): pairs a `done`
flag with a resolved value to form an `IteratorResult`. -/
def toIteratorResult (done : Bool) (value : YieldValue) : Bool × YieldValue :=
  (done, value)

/-- An observable event of one pump invocation, in order of occurrence:
a sink call (`this.push`; `none` is the closing `push(null)`), a completion
callback invocation (`none` is success, `some e` an error argument), the
registration of the one-shot `ready` listener (`this.once("ready", ...)`),
and the firing of the `ready` event. -/
inductive Ev where
  | push (d : Option InflatedData)
  | callback (e : Option Nat)
  | listen
  | ready
  deriving DecidableEq, Repr

/-- The mutable context of one pump invocation: the sink's remaining
capacity answers, the callback's remaining behaviours, whether a one-shot
`ready` listener is currently registered, and the event trace so far. -/
structure St where
  sink : List Bool
  cb : List (Option Nat)
  listening : Bool
  trace : List Ev
  deriving DecidableEq, Repr

/-- How the control of one run returns to the event loop. -/
inductive RunEnd where
  | normal
  | threw (e : Nat)
  | unhandled (e : Nat)
  deriving DecidableEq, Repr

/-- The result of running a pump invocation: either control has returned
with every task done (`finished`, with how it returned), or the run is
suspended waiting for the `ready` event, carrying the rest of the
generator script. -/
inductive PumpResult where
  | finished (s : St) (e : RunEnd)
  | suspended (s : St) (gen : List GenStep)
  deriving DecidableEq, Repr

/-- Where a completion-callback invocation happens, which decides where an
exception it throws lands:
  * `sync`: inside a trampoline running under the pump's caller — the
    exception propagates synchronously out of `_push`;
  * `chainThen`: inside `.then((next) => this._resumePushing(next))` of
    `promiseToPush` (src/index.js line 246) — the exception rejects the
    chain and `.catch(callback)` (line 247) invokes the callback again;
  * `chainCatch`: inside `.catch(callback)` itself — the exception becomes
    an unhandled promise rejection. -/
inductive CbCtx where
  | sync
  | chainThen
  | chainCatch
  deriving DecidableEq, Repr

/-- The callback context of a trampoline: the chain's `.then` stage when the
trampoline was entered from a promise chain, the synchronous context
otherwise. -/
def ctxOf (inChain : Bool) : CbCtx :=
  if inChain then CbCtx.chainThen else CbCtx.sync

/-- Invoke the completion callback once with argument `err`: records the
invocation and consumes one scripted behaviour, returning the error the
callback throws, if any (an exhausted script returns normally). -/
def invokeCallback (err : Option Nat) (s : St) : St × Option Nat :=
  ({ s with cb := s.cb.tail, trace := s.trace ++ [Ev.callback err] }, s.cb.headD none)

/-- Invoke the completion callback with `err` as the terminal action of a
run, routing an exception the callback throws according to the context:
synchronously out of the pump (`threw`), through `.catch(callback)` into a
second invocation (`chainThen`), or into an unhandled rejection. -/
def finishCallback (ctx : CbCtx) (err : Option Nat) (s : St) : PumpResult :=
  match invokeCallback err s with
  | (s1, none) => PumpResult.finished s1 RunEnd.normal
  | (s1, some e) =>
    match ctx with
    | CbCtx.sync => PumpResult.finished s1 (RunEnd.threw e)
    | CbCtx.chainCatch => PumpResult.finished s1 (RunEnd.unhandled e)
    | CbCtx.chainThen =>
      match invokeCallback (some e) s1 with
      | (s2, none) => PumpResult.finished s2 RunEnd.normal
      | (s2, some e2) => PumpResult.finished s2 (RunEnd.unhandled e2)

/-- Mirrors `_pushInflatedData` (src/index.js lines 311-322): `null` closes
the Readable (`this.push(null)`) and reports `FINISHED`; otherwise the chunk
is pushed and the sink's boolean answer (`more`) selects `NOT_FULL` or
`FULL`.  Returns the status, the sink's remaining answers, and the recorded
sink call. -/
def _pushInflatedData (data : YieldValue) (sink : List Bool) :
    ReadableBufferStatus × List Bool × Ev :=
  match data with
  | none => (ReadableBufferStatus.FINISHED, sink, Ev.push none)
  | some d =>
    let more := sink.headD true
    ((if more then ReadableBufferStatus.NOT_FULL else ReadableBufferStatus.FULL),
      sink.tail, Ev.push (some d))

/-- A defunctionalized `NextFunction` as returned by `_pushYieldedValue`:
the continuation `next = () => this._pushNextValue(generator, callback)` or
the terminal thunk `done = voidToNull(callback)`.  `_pushYieldedValue`
returning `null` after `this.once("ready", ...)` is modelled by returning
no thunk with the `listening` flag set. -/
inductive NextF where
  | nextValue
  | doneThunk
  deriving DecidableEq, Repr

/-- Mirrors `_pushYieldedValue` (src/index.js lines 278-302): a `done`
result returns the `done` thunk; otherwise the value is handed to
`_pushInflatedData`; on `FULL` a one-shot `ready` listener is registered
and `null` is returned; on `NOT_FULL` the `next` thunk is returned; on
`FINISHED` the `done` thunk is returned. -/
def _pushYieldedValue (done : Bool) (value : YieldValue) (s : St) :
    Option NextF × St :=
  if done then
    (some NextF.doneThunk, s)
  else
    match _pushInflatedData value s.sink with
    | (bufferStatus, sink1, ev) =>
      let s1 : St := { s with sink := sink1, trace := s.trace ++ [ev] }
      if isFull bufferStatus then
        (none, { s1 with listening := true, trace := s1.trace ++ [Ev.listen] })
      else if isNotFull bufferStatus then
        (some NextF.nextValue, s1)
      else
        (some NextF.doneThunk, s1)

/-- The trampoline invoking what `_pushYieldedValue` handed back, plus the
event-loop bookkeeping: `next` means the loop continues with another
`_pushNextValue` call (`Sum.inr`, with the callback context the
continuation will run in); the `done` thunk invokes the callback and ends
the run; `null` with a registered listener suspends the invocation until
`ready` — when `fire` is set the scheduler fires `ready` at once and the
handler `() => this._resumePushing(next)` re-enters a fresh synchronous
trampoline (so the chain context is left). -/
def handleThunk (fire inChain : Bool) (gs : List GenStep) :
    Option NextF × St → PumpResult ⊕ (Bool × St)
  | (some NextF.nextValue, s) => Sum.inr (inChain, s)
  | (some NextF.doneThunk, s) => Sum.inl (finishCallback (ctxOf inChain) none s)
  | (none, s) =>
    if s.listening then
      if fire then
        Sum.inr (false, { s with listening := false, trace := s.trace ++ [Ev.ready] })
      else
        Sum.inl (PumpResult.suspended s gs)
    else
      Sum.inl (PumpResult.finished s RunEnd.normal)

/-- The chain `promiseToPush` builds (src/index.js lines 242-248):
`promise.then(next).then((next) => this._resumePushing(next)).catch(callback)`.
A rejection skips to `.catch(callback)`; a resolution runs
`_pushYieldedValue` on the settled `IteratorResult` and then the chain's
trampoline, with every callback invocation in the `chainThen` context. -/
def chainStep (fire : Bool) (gs : List GenStep) (p : Promise (Bool × YieldValue))
    (s : St) : PumpResult ⊕ (Bool × St) :=
  match p with
  | Promise.rejects e => Sum.inl (finishCallback CbCtx.chainCatch (some e) s)
  | Promise.resolves (done, v) => handleThunk fire true gs (_pushYieldedValue done v s)

/-- Mirrors `_pushNextValue` (src/index.js lines 237-268) together with the
trampoline that keeps invoking the thunks it returns: one `generator.next()`
call is one consumed `GenStep`; an exhausted script behaves as a finished JS
generator (an `IteratorResult` with `done: true`, whose value is ignored) so
the `done` thunk invokes the callback.  A synchronous throw of
`generator.next()` is caught and becomes `voidToNull(() => callback(e))`,
invoked by the running trampoline.  A promise in either position goes
through `promiseToPush` (`chainStep`); a plain result goes through
`next = (value) => this._pushYieldedValue(value, generator, callback)`. -/
def pumpRun (fire : Bool) : Bool → List GenStep → St → PumpResult
  | inChain, [], s => finishCallback (ctxOf inChain) none s
  | inChain, g :: gs, s =>
    match
      (match g with
       | GenStep.throws e => Sum.inl (finishCallback (ctxOf inChain) (some e) s)
       | GenStep.result done v =>
         handleThunk fire inChain gs (_pushYieldedValue done v s)
       | GenStep.resultPromise done p =>
         chainStep fire gs (p.map (toIteratorResult done)) s
       | GenStep.asyncResult p => chainStep fire gs p s) with
    | Sum.inl r => r
    | Sum.inr (ic, s1) => pumpRun fire ic gs s1

/-- Mirrors `_push` (src/index.js lines 193-205): a throw while creating the
generator is caught and answered by `return callback(e)` (an exception the
callback itself throws propagates to the caller of `_push`); otherwise the
trampoline is entered on `() => this._pushNextValue(generator, callback)`. -/
def _push (fire : Bool) (factoryThrows : Option Nat) (gen : List GenStep)
    (s : St) : PumpResult :=
  match factoryThrows with
  | some e =>
    match invokeCallback (some e) s with
    | (s1, none) => PumpResult.finished s1 RunEnd.normal
    | (s1, some t) => PumpResult.finished s1 (RunEnd.threw t)
  | none => pumpRun fire false gen s

/-- One pump invocation from a fresh context: `_push` on the scripted
generator, sink and callback, with an empty trace. -/
def runPump (fire : Bool) (factoryThrows : Option Nat) (gen : List GenStep)
    (sink : List Bool) (cb : List (Option Nat)) : PumpResult :=
  _push fire factoryThrows gen
    { sink := sink, cb := cb, listening := false, trace := [] }

/-- The `ready` event firing on a suspended invocation: the one-shot
listener is cleared and its handler `() => this._resumePushing(next)`
re-enters the trampoline at the next `_pushNextValue` call.  A finished
result is left unchanged. -/
def resume (fire : Bool) (r : PumpResult) : PumpResult :=
  match r with
  | PumpResult.suspended s gen =>
    pumpRun fire false gen
      { s with listening := false, trace := s.trace ++ [Ev.ready] }
  | r => r

/-- The trace a result carries. -/
def traceOf : PumpResult → List Ev
  | PumpResult.finished s _ => s.trace
  | PumpResult.suspended s _ => s.trace

/-- The arguments of the callback invocations of a trace, in order. -/
def callbackEvents (t : List Ev) : List (Option Nat) :=
  t.filterMap fun ev =>
    match ev with
    | Ev.callback e => some e
    | _ => none

/-- The sink calls of a trace, in order (`none` is `push(null)`). -/
def pushEvents (t : List Ev) : List (Option InflatedData) :=
  t.filterMap fun ev =>
    match ev with
    | Ev.push d => some d
    | _ => none

/-- The generator step of a synchronously yielded concrete item. -/
def yieldStep (d : InflatedData) : GenStep :=
  GenStep.result false (some d)

/-- The sink call of a concrete item. -/
def pushEv (d : InflatedData) : Ev :=
  Ev.push (some d)

/-- A JS value as the trampoline sees it: either a callable (invoking it
yields the following value) or a non-callable terminal value carrying `v`.
The chain is finite exactly when the loop in the source terminates. -/
inductive Chain (V : Type) where
  | halt (v : V)
  | call (f : Unit → Chain V)

/-- The JS `null` the trampoline returns. -/
inductive JSNull where
  | null
  deriving DecidableEq, Repr

/-- Mirrors `trampoline` (src/index.js lines 334-340): while the current
value is callable, invoke it and replace the value with what the invocation
returns; once it is not callable, return `null`. -/
def trampoline {V : Type} : Chain V → JSNull
  | Chain.halt _ => JSNull.null
  | Chain.call f => trampoline (f ())

theorem callbackEvents_append (a b : List Ev) :
    callbackEvents (a ++ b) = callbackEvents a ++ callbackEvents b := by
  simp [callbackEvents]

theorem pushEvents_append (a b : List Ev) :
    pushEvents (a ++ b) = pushEvents a ++ pushEvents b := by
  simp [pushEvents]

theorem callbackEvents_map_pushEv (items : List InflatedData) :
    callbackEvents (items.map pushEv) = [] := by
  induction items with
  | nil => rfl
  | cons d ds ih => simp [callbackEvents, pushEv, ih]

/-- Draining a run of synchronously yielded items while the sink keeps
answering `true`: each item is pushed (`NOT_FULL`) and the loop continues
with the rest of the generator. -/
theorem pumpRun_drain (items : List InflatedData) (fire inChain : Bool)
    (restGen : List GenStep) (restSink : List Bool) (s : St)
    (hs : s.sink = List.replicate items.length true ++ restSink) :
    pumpRun fire inChain (items.map yieldStep ++ restGen) s =
      pumpRun fire inChain restGen
        { s with sink := restSink, trace := s.trace ++ items.map pushEv } := by
  induction items generalizing s with
  | nil =>
    simp only [List.length_nil, List.replicate_zero, List.nil_append] at hs
    simp [← hs]
  | cons d ds ih =>
    simp only [List.length_cons, List.replicate_succ, List.cons_append] at hs
    simp [List.map_cons, List.cons_append, pumpRun, yieldStep,
      _pushYieldedValue, _pushInflatedData, hs, isFull, isNotFull, handleThunk,
      List.append_eq]
    rw [ih { s with sink := List.replicate ds.length true ++ restSink,
                    trace := s.trace ++ [Ev.push (some d)] } rfl]
    simp [pushEv]

/-- Running the pump on a generator with no steps left invokes the
completion callback right away. -/
theorem pumpRun_nil (fire inChain : Bool) (s : St) :
    pumpRun fire inChain [] s = finishCallback (ctxOf inChain) none s := rfl

/-- C2: for every input generator yielding N concrete items with the sink
always answering `NotFull`, the pump pushes exactly those N items in
production order and then invokes the completion callback exactly once with
no error. -/
theorem pump_pushes_all_items_then_completes (items : List InflatedData) :
    runPump true none (items.map yieldStep) (List.replicate items.length true) [] =
      PumpResult.finished
        { sink := [], cb := [], listening := false,
          trace := items.map pushEv ++ [Ev.callback none] }
        RunEnd.normal := by
  have h := pumpRun_drain items true false [] []
    { sink := List.replicate items.length true, cb := [], listening := false,
      trace := [] } (by simp)
  simp only [List.append_nil] at h
  simp [runPump, _push, h, pumpRun_nil, finishCallback, invokeCallback, ctxOf]

/-- C7: if the very first `generator.next()` throws synchronously, nothing
is ever pushed to the sink for that invocation and the completion callback
is invoked exactly once, with that error. -/
theorem first_advance_throws_only_callback (e : Nat) (rest : List GenStep)
    (sink : List Bool) :
    runPump true none (GenStep.throws e :: rest) sink [] =
      PumpResult.finished
        { sink := sink, cb := [], listening := false,
          trace := [Ev.callback (some e)] }
        RunEnd.normal := by
  simp [runPump, _push, pumpRun, finishCallback, invokeCallback, ctxOf]

/-- C10: when an advance returns a result with `done: true`, the
accompanying value — whatever it is, in particular a concrete produced value
returned rather than yielded — is never pushed to the sink: the completion
callback is invoked directly and the value is discarded. -/
theorem done_value_never_pushed (items : List InflatedData) (v : YieldValue) :
    runPump true none (items.map yieldStep ++ [GenStep.result true v])
      (List.replicate items.length true) [] =
      PumpResult.finished
        { sink := [], cb := [], listening := false,
          trace := items.map pushEv ++ [Ev.callback none] }
        RunEnd.normal := by
  have h := pumpRun_drain items true false [GenStep.result true v] []
    { sink := List.replicate items.length true, cb := [], listening := false,
      trace := [] } (by simp)
  simp [runPump, _push, h, pumpRun, _pushYieldedValue, handleThunk,
    finishCallback, invokeCallback, ctxOf]

/-- C6: when the generator yields a promise that rejects (either a
synchronous generator yielding a rejecting promise, or an async generator
whose advance rejects), the completion callback is invoked exactly once with
that rejection error and no item produced after the rejected one is ever
pushed to the sink. -/
theorem rejected_promise_only_callback (items : List InflatedData) (e : Nat)
    (rest : List GenStep) :
    runPump true none
        (items.map yieldStep ++ GenStep.resultPromise false (Promise.rejects e) :: rest)
        (List.replicate items.length true) [] =
      PumpResult.finished
        { sink := [], cb := [], listening := false,
          trace := items.map pushEv ++ [Ev.callback (some e)] }
        RunEnd.normal
    ∧ runPump true none
        (items.map yieldStep ++ GenStep.asyncResult (Promise.rejects e) :: rest)
        (List.replicate items.length true) [] =
      PumpResult.finished
        { sink := [], cb := [], listening := false,
          trace := items.map pushEv ++ [Ev.callback (some e)] }
        RunEnd.normal := by
  have h1 := pumpRun_drain items true false
    (GenStep.resultPromise false (Promise.rejects e) :: rest) []
    { sink := List.replicate items.length true, cb := [], listening := false,
      trace := [] } (by simp)
  have h2 := pumpRun_drain items true false
    (GenStep.asyncResult (Promise.rejects e) :: rest) []
    { sink := List.replicate items.length true, cb := [], listening := false,
      trace := [] } (by simp)
  constructor
  · simp [runPump, _push, h1, pumpRun, chainStep, Promise.map, toIteratorResult,
      finishCallback, invokeCallback]
  · simp [runPump, _push, h2, pumpRun, chainStep, Promise.map,
      finishCallback, invokeCallback]

/-- C4: when the sink answers `Full` on item k (here the last of
`itemsA ++ [d]`, with `itemsB` still to come), the pump registers the
one-shot `ready` listener and returns control with nothing after that sink
call in the trace — no further advance and no further sink call happens
until the signal fires; once `ready` fires, the remaining items are pushed,
still in production order, and the invocation completes. -/
theorem full_suspends_until_ready (itemsA : List InflatedData) (d : InflatedData)
    (itemsB : List InflatedData) (fire : Bool) :
    runPump false none ((itemsA ++ d :: itemsB).map yieldStep)
        (List.replicate itemsA.length true ++ false :: List.replicate itemsB.length true)
        [] =
      PumpResult.suspended
        { sink := List.replicate itemsB.length true, cb := [], listening := true,
          trace := itemsA.map pushEv ++ [pushEv d, Ev.listen] }
        (itemsB.map yieldStep)
    ∧ resume fire
        (runPump false none ((itemsA ++ d :: itemsB).map yieldStep)
          (List.replicate itemsA.length true ++ false :: List.replicate itemsB.length true)
          []) =
      PumpResult.finished
        { sink := [], cb := [], listening := false,
          trace := (itemsA.map pushEv ++ [pushEv d, Ev.listen, Ev.ready])
            ++ itemsB.map pushEv ++ [Ev.callback none] }
        RunEnd.normal := by
  have h1 := pumpRun_drain itemsA false false
    (yieldStep d :: itemsB.map yieldStep)
    (false :: List.replicate itemsB.length true)
    { sink := List.replicate itemsA.length true ++ false :: List.replicate itemsB.length true,
      cb := [], listening := false, trace := [] } (by simp)
  have hsusp :
      runPump false none ((itemsA ++ d :: itemsB).map yieldStep)
        (List.replicate itemsA.length true ++ false :: List.replicate itemsB.length true)
        [] =
      PumpResult.suspended
        { sink := List.replicate itemsB.length true, cb := [], listening := true,
          trace := itemsA.map pushEv ++ [pushEv d, Ev.listen] }
        (itemsB.map yieldStep) := by
    simp only [List.map_append, List.map_cons, runPump, _push]
    rw [h1]
    simp [pumpRun, yieldStep, _pushYieldedValue, _pushInflatedData, isFull,
      isNotFull, handleThunk, pushEv]
  refine ⟨hsusp, ?_⟩
  rw [hsusp]
  have h2 := pumpRun_drain itemsB fire false [] []
    { sink := List.replicate itemsB.length true, cb := [], listening := false,
      trace := itemsA.map pushEv ++ [pushEv d, Ev.listen, Ev.ready] } (by simp)
  simp only [List.append_nil] at h2
  simp [resume, h2, pumpRun_nil, finishCallback, invokeCallback, ctxOf]

/-- C3, counterexample: on the asynchronous (promise-resolution) path the
claim fails.  With an async generator whose advance resolves to
`done: true` and a completion callback scripted to throw error 7 on its
first invocation, the run ends normally — the exception does not propagate
to the pump's caller — and the trace shows the callback invoked a second
time, with the very error the first invocation threw, because
`.catch(callback)` of `promiseToPush` catches it. -/
theorem callback_throw_async_double_invocation :
    runPump true none [GenStep.asyncResult (Promise.resolves (true, none))] [] [some 7] =
      PumpResult.finished
        { sink := [], cb := [], listening := false,
          trace := [Ev.callback none, Ev.callback (some 7)] }
        RunEnd.normal
    ∧ (callbackEvents (traceOf (runPump true none
        [GenStep.asyncResult (Promise.resolves (true, none))] [] [some 7]))).length = 2 := by
  exact ⟨rfl, rfl⟩

/-- C3, amended: on the synchronous path an exception thrown by the
caller-supplied completion callback propagates synchronously to the pump's
caller, is not caught or reinterpreted as a production error, and causes no
second invocation of the callback.  On the asynchronous
(promise-resolution) path the exception is instead caught by the
`.catch(callback)` stage of the promise chain, nothing reaches the pump's
caller, and the callback is invoked a second time with that exception as
its error argument. -/
theorem callback_throw_sync_propagates_async_caught (e : Nat)
    (items : List InflatedData) :
    runPump true none (items.map yieldStep) (List.replicate items.length true)
        [some e] =
      PumpResult.finished
        { sink := [], cb := [], listening := false,
          trace := items.map pushEv ++ [Ev.callback none] }
        (RunEnd.threw e)
    ∧ runPump true none
        (items.map yieldStep ++ [GenStep.asyncResult (Promise.resolves (true, none))])
        (List.replicate items.length true) [some e] =
      PumpResult.finished
        { sink := [], cb := [], listening := false,
          trace := items.map pushEv ++ [Ev.callback none, Ev.callback (some e)] }
        RunEnd.normal := by
  have h1 := pumpRun_drain items true false [] []
    { sink := List.replicate items.length true, cb := [some e], listening := false,
      trace := [] } (by simp)
  simp only [List.append_nil] at h1
  have h2 := pumpRun_drain items true false
    [GenStep.asyncResult (Promise.resolves (true, none))] []
    { sink := List.replicate items.length true, cb := [some e], listening := false,
      trace := [] } (by simp)
  constructor
  · simp [runPump, _push, h1, pumpRun_nil, finishCallback, invokeCallback, ctxOf]
  · simp [runPump, _push, h2, pumpRun, chainStep, _pushYieldedValue,
      handleThunk, finishCallback, invokeCallback, ctxOf]

/-- Modelled from the spec (section 4.4), for comparison with the code's
status computation: given the sink's boolean capacity response `A` and
whether the handed-in item was the closing sentinel `S`, the status is
`Finished` whenever `S` holds regardless of `A`, `NotFull` for
`S = false, A = true`, and `Full` for `S = false, A = false`. -/
def specStatus (S A : Bool) : ReadableBufferStatus :=
  if S then ReadableBufferStatus.FINISHED
  else if A then ReadableBufferStatus.NOT_FULL
  else ReadableBufferStatus.FULL

/-- C5: the status `_pushInflatedData` reports for one hand-off is the pure
function of exactly the sentinel flag (is the value the closing `null`)
and the sink's boolean capacity answer that the spec states. -/
theorem status_is_pure_function_of_sentinel_and_answer (data : YieldValue)
    (sink : List Bool) :
    (_pushInflatedData data sink).1 = specStatus data.isNone (sink.headD true) := by
  cases data <;> simp [_pushInflatedData, specStatus]

/-- C9: the trampoline repeatedly invokes the current value while it is
callable, replacing it with the invocation's return value, stops as soon as
the value is not callable, and always returns `null`; in particular on a
non-callable initial value such as `null` it returns `null` without
invoking anything. -/
theorem trampoline_runs_chain_and_returns_null (V : Type) (c : Chain V)
    (f : Unit → Chain V) (v : V) :
    trampoline c = JSNull.null
    ∧ trampoline (Chain.call f) = trampoline (f ())
    ∧ trampoline (Chain.halt v) = JSNull.null := by
  refine ⟨?_, rfl, rfl⟩
  induction c with
  | halt w => rfl
  | call g ih => exact ih ()

/-- A completion callback with no scripted throw left returns normally:
`finishCallback` records exactly one invocation and ends the run normally. -/
theorem finishCallback_no_throw (ctx : CbCtx) (err : Option Nat) (s : St)
    (hcb : s.cb = []) :
    finishCallback ctx err s =
      PumpResult.finished
        { s with cb := [], trace := s.trace ++ [Ev.callback err] }
        RunEnd.normal := by
  simp [finishCallback, invokeCallback, hcb]

theorem pushYielded_done (v : YieldValue) (s : St) :
    _pushYieldedValue true v s = (some NextF.doneThunk, s) := rfl

theorem pushYielded_close (s : St) :
    _pushYieldedValue false none s =
      (some NextF.doneThunk, ⟨s.sink, s.cb, s.listening, s.trace ++ [Ev.push none]⟩) := rfl

theorem pushYielded_notFull (d : InflatedData) (s : St)
    (hh : s.sink.headD true = true) :
    _pushYieldedValue false (some d) s =
      (some NextF.nextValue,
        ⟨s.sink.tail, s.cb, s.listening, s.trace ++ [Ev.push (some d)]⟩) := by
  simp only [_pushYieldedValue, _pushInflatedData, isFull, isNotFull, hh]
  simp

theorem pushYielded_isFull (d : InflatedData) (s : St)
    (hh : s.sink.headD true = false) :
    _pushYieldedValue false (some d) s =
      (none,
        ⟨s.sink.tail, s.cb, true, s.trace ++ [Ev.push (some d)] ++ [Ev.listen]⟩) := by
  simp only [_pushYieldedValue, _pushInflatedData, isFull, isNotFull, hh]
  simp

/-- Step lemma for the single-callback invariant: however `_pushYieldedValue`
and the trampoline treat one settled result, either the callback fires
exactly once now, or the loop continues into a state whose callback script
is still exhausted. -/
theorem handle_yield_single_callback (gs : List GenStep) (done : Bool)
    (v : YieldValue) (ic2 : Bool) (s : St) (hcb : s.cb = [])
    (IH : ∀ (inChain : Bool) (s' : St), s'.cb = [] →
      ∃ (t : St) (x : Option Nat),
        pumpRun true inChain gs s' = PumpResult.finished t RunEnd.normal ∧
        callbackEvents t.trace = callbackEvents s'.trace ++ [x]) :
    ∃ (t : St) (x : Option Nat),
      (match handleThunk true ic2 gs (_pushYieldedValue done v s) with
       | Sum.inl r => r
       | Sum.inr (ic, s1) => pumpRun true ic gs s1) =
        PumpResult.finished t RunEnd.normal ∧
      callbackEvents t.trace = callbackEvents s.trace ++ [x] := by
  cases done with
  | true =>
    rw [pushYielded_done]
    rw [show handleThunk true ic2 gs (some NextF.doneThunk, s) =
      Sum.inl (finishCallback (ctxOf ic2) none s) from rfl]
    rw [finishCallback_no_throw _ _ _ hcb]
    exact ⟨_, none, rfl, by simp [callbackEvents_append, callbackEvents]⟩
  | false =>
    cases v with
    | none =>
      rw [pushYielded_close]
      rw [show handleThunk true ic2 gs
          (some NextF.doneThunk, (⟨s.sink, s.cb, s.listening,
            s.trace ++ [Ev.push none]⟩ : St)) =
        Sum.inl (finishCallback (ctxOf ic2) none
          ⟨s.sink, s.cb, s.listening, s.trace ++ [Ev.push none]⟩) from rfl]
      rw [finishCallback_no_throw (ctxOf ic2) none
        ⟨s.sink, s.cb, s.listening, s.trace ++ [Ev.push none]⟩ hcb]
      exact ⟨_, none, rfl, by simp [callbackEvents_append, callbackEvents]⟩
    | some d =>
      cases hh : s.sink.headD true with
      | true =>
        rw [pushYielded_notFull d s hh]
        rw [show handleThunk true ic2 gs (some NextF.nextValue,
            (⟨s.sink.tail, s.cb, s.listening,
              s.trace ++ [Ev.push (some d)]⟩ : St)) =
          Sum.inr (ic2, ⟨s.sink.tail, s.cb, s.listening,
            s.trace ++ [Ev.push (some d)]⟩) from rfl]
        obtain ⟨t, x, h1, h2⟩ := IH ic2
          ⟨s.sink.tail, s.cb, s.listening, s.trace ++ [Ev.push (some d)]⟩ hcb
        refine ⟨t, x, h1, ?_⟩
        rw [h2]
        simp [callbackEvents_append, callbackEvents]
      | false =>
        rw [pushYielded_isFull d s hh]
        rw [show handleThunk true ic2 gs (none,
            (⟨s.sink.tail, s.cb, true,
              s.trace ++ [Ev.push (some d)] ++ [Ev.listen]⟩ : St)) =
          Sum.inr (false, ⟨s.sink.tail, s.cb, false,
            s.trace ++ [Ev.push (some d)] ++ [Ev.listen] ++ [Ev.ready]⟩) from rfl]
        obtain ⟨t, x, h1, h2⟩ := IH false
          ⟨s.sink.tail, s.cb, false,
            s.trace ++ [Ev.push (some d)] ++ [Ev.listen] ++ [Ev.ready]⟩ hcb
        refine ⟨t, x, h1, ?_⟩
        rw [h2]
        simp [callbackEvents_append, callbackEvents]

/-- With a completion callback that never throws, every run of the loop from
any state returns normally with exactly one more callback invocation
recorded — whatever the generator does and whatever the sink answers. -/
theorem pumpRun_single_callback (gen : List GenStep) (inChain : Bool) (s : St)
    (hcb : s.cb = []) :
    ∃ (t : St) (x : Option Nat),
      pumpRun true inChain gen s = PumpResult.finished t RunEnd.normal ∧
      callbackEvents t.trace = callbackEvents s.trace ++ [x] := by
  induction gen generalizing inChain s with
  | nil =>
    rw [pumpRun_nil, finishCallback_no_throw _ _ _ hcb]
    exact ⟨_, none, rfl, by simp [callbackEvents_append, callbackEvents]⟩
  | cons g gs ih =>
    cases g with
    | throws e =>
      rw [show pumpRun true inChain (GenStep.throws e :: gs) s =
        finishCallback (ctxOf inChain) (some e) s from rfl]
      rw [finishCallback_no_throw _ _ _ hcb]
      exact ⟨_, some e, rfl, by simp [callbackEvents_append, callbackEvents]⟩
    | result done v =>
      exact handle_yield_single_callback gs done v inChain s hcb ih
    | resultPromise done p =>
      cases p with
      | rejects e =>
        rw [show pumpRun true inChain
            (GenStep.resultPromise done (Promise.rejects e) :: gs) s =
          finishCallback CbCtx.chainCatch (some e) s from rfl]
        rw [finishCallback_no_throw _ _ _ hcb]
        exact ⟨_, some e, rfl, by simp [callbackEvents_append, callbackEvents]⟩
      | resolves v =>
        exact handle_yield_single_callback gs done v true s hcb ih
    | asyncResult p =>
      cases p with
      | rejects e =>
        rw [show pumpRun true inChain
            (GenStep.asyncResult (Promise.rejects e) :: gs) s =
          finishCallback CbCtx.chainCatch (some e) s from rfl]
        rw [finishCallback_no_throw _ _ _ hcb]
        exact ⟨_, some e, rfl, by simp [callbackEvents_append, callbackEvents]⟩
      | resolves dv =>
        exact handle_yield_single_callback gs dv.1 dv.2 true s hcb ih

/-- C1: one pump invocation with a well-behaved (non-throwing) completion
callback invokes that callback exactly once — with success or with an
error — on every execution path: synchronous generator, promise-yielding
generator, async generator, suspension on a full sink with resumption, and
every error path including generator-construction failure. -/
theorem completion_callback_exactly_once (factoryThrows : Option Nat)
    (gen : List GenStep) (sink : List Bool) :
    (callbackEvents (traceOf
      (runPump true factoryThrows gen sink []))).length = 1 := by
  cases factoryThrows with
  | some e =>
    simp [runPump, _push, invokeCallback, traceOf, callbackEvents]
  | none =>
    obtain ⟨t, x, h1, h2⟩ := pumpRun_single_callback gen false
      ⟨sink, [], false, []⟩ rfl
    rw [show runPump true none gen sink [] =
      pumpRun true false gen ⟨sink, [], false, []⟩ from rfl, h1]
    rw [show traceOf (PumpResult.finished t RunEnd.normal) = t.trace from rfl, h2]
    simp [callbackEvents]

/-- Is an event a sink call (`this.push` of anything, chunk or `null`). -/
def isPushEv : Ev → Bool
  | Ev.push _ => true
  | _ => false

/-- Scanning the trace left to right, once a closing `push(null)` occurs,
no sink call of any kind occurs in the rest (so `push(null)` also occurs at
most once). -/
def noSinkCallAfterClose : List Ev → Bool
  | [] => true
  | Ev.push none :: rest => rest.all fun ev => !isPushEv ev
  | _ :: rest => noSinkCallAfterClose rest

theorem noSinkCallAfterClose_of_no_push (l : List Ev)
    (h : (l.all fun ev => !isPushEv ev) = true) :
    noSinkCallAfterClose l = true := by
  induction l with
  | nil => rfl
  | cons ev rest ih =>
    rw [List.all_cons, Bool.and_eq_true] at h
    cases ev with
    | push d => simp [isPushEv] at h
    | callback e => exact ih h.2
    | listen => exact ih h.2
    | ready => exact ih h.2

/-- Whatever the callback's scripted behaviour and the invocation context,
`finishCallback` appends only callback invocations to the trace — never a
sink call. -/
theorem finishCallback_trace (ctx : CbCtx) (err : Option Nat) (s : St) :
    ∃ (t : St) (e : RunEnd) (d : List Ev),
      finishCallback ctx err s = PumpResult.finished t e ∧
      t.trace = s.trace ++ d ∧ (d.all fun ev => !isPushEv ev) = true := by
  cases hx : s.cb.headD none with
  | none =>
    rw [List.headD_eq_head?] at hx
    have h : finishCallback ctx err s =
        PumpResult.finished
          ⟨s.sink, s.cb.tail, s.listening, s.trace ++ [Ev.callback err]⟩
          RunEnd.normal := by
      simp [finishCallback, invokeCallback, hx]
    exact ⟨_, _, [Ev.callback err], h, rfl, rfl⟩
  | some e =>
    rw [List.headD_eq_head?] at hx
    cases ctx with
    | sync =>
      have h : finishCallback CbCtx.sync err s =
          PumpResult.finished
            ⟨s.sink, s.cb.tail, s.listening, s.trace ++ [Ev.callback err]⟩
            (RunEnd.threw e) := by
        simp [finishCallback, invokeCallback, hx]
      exact ⟨_, _, [Ev.callback err], h, rfl, rfl⟩
    | chainCatch =>
      have h : finishCallback CbCtx.chainCatch err s =
          PumpResult.finished
            ⟨s.sink, s.cb.tail, s.listening, s.trace ++ [Ev.callback err]⟩
            (RunEnd.unhandled e) := by
        simp [finishCallback, invokeCallback, hx]
      exact ⟨_, _, [Ev.callback err], h, rfl, rfl⟩
    | chainThen =>
      cases hy : s.cb.tail.headD none with
      | none =>
        simp only [List.headD_eq_head?, List.head?_tail] at hy
        have h : finishCallback CbCtx.chainThen err s =
            PumpResult.finished
              ⟨s.sink, s.cb.tail.tail, s.listening,
                s.trace ++ [Ev.callback err] ++ [Ev.callback (some e)]⟩
              RunEnd.normal := by
          simp [finishCallback, invokeCallback, hx, hy]
        exact ⟨_, _, [Ev.callback err, Ev.callback (some e)], h, by simp, rfl⟩
      | some e2 =>
        simp only [List.headD_eq_head?, List.head?_tail] at hy
        have h : finishCallback CbCtx.chainThen err s =
            PumpResult.finished
              ⟨s.sink, s.cb.tail.tail, s.listening,
                s.trace ++ [Ev.callback err] ++ [Ev.callback (some e)]⟩
              (RunEnd.unhandled e2) := by
          simp [finishCallback, invokeCallback, hx, hy]
        exact ⟨_, _, [Ev.callback err, Ev.callback (some e)], h, by simp, rfl⟩

/-- Step lemma for the close invariant: whatever `_pushYieldedValue` and
the trampoline do with one settled result, the events they append keep the
property that no sink call follows a closing `push(null)`. -/
theorem handle_yield_no_push_after_close (gs : List GenStep) (done : Bool)
    (v : YieldValue) (fire ic2 : Bool) (s : St)
    (IH : ∀ (inChain : Bool) (s' : St),
      ∃ d, traceOf (pumpRun fire inChain gs s') = s'.trace ++ d ∧
        noSinkCallAfterClose d = true) :
    ∃ d,
      traceOf (match handleThunk fire ic2 gs (_pushYieldedValue done v s) with
       | Sum.inl r => r
       | Sum.inr (ic, s1) => pumpRun fire ic gs s1) = s.trace ++ d ∧
      noSinkCallAfterClose d = true := by
  cases done with
  | true =>
    rw [pushYielded_done]
    obtain ⟨t, e, dc, h, ht, hall⟩ := finishCallback_trace (ctxOf ic2) none s
    refine ⟨dc, ?_, noSinkCallAfterClose_of_no_push dc hall⟩
    rw [show (match handleThunk fire ic2 gs (some NextF.doneThunk, s) with
      | Sum.inl r => r
      | Sum.inr (ic, s1) => pumpRun fire ic gs s1) =
        finishCallback (ctxOf ic2) none s from rfl, h]
    exact ht
  | false =>
    cases v with
    | none =>
      rw [pushYielded_close]
      obtain ⟨t, e, dc, h, ht, hall⟩ := finishCallback_trace (ctxOf ic2) none
        ⟨s.sink, s.cb, s.listening, s.trace ++ [Ev.push none]⟩
      refine ⟨Ev.push none :: dc, ?_, ?_⟩
      · rw [show (match handleThunk fire ic2 gs (some NextF.doneThunk,
            (⟨s.sink, s.cb, s.listening, s.trace ++ [Ev.push none]⟩ : St)) with
          | Sum.inl r => r
          | Sum.inr (ic, s1) => pumpRun fire ic gs s1) =
            finishCallback (ctxOf ic2) none
              ⟨s.sink, s.cb, s.listening, s.trace ++ [Ev.push none]⟩ from rfl, h]
        rw [show traceOf (PumpResult.finished t e) = t.trace from rfl, ht]
        simp
      · rw [show noSinkCallAfterClose (Ev.push none :: dc) =
          (dc.all fun ev => !isPushEv ev) from rfl]
        exact hall
    | some d0 =>
      cases hh : s.sink.headD true with
      | true =>
        rw [pushYielded_notFull d0 s hh]
        rw [show (match handleThunk fire ic2 gs (some NextF.nextValue,
            (⟨s.sink.tail, s.cb, s.listening,
              s.trace ++ [Ev.push (some d0)]⟩ : St)) with
          | Sum.inl r => r
          | Sum.inr (ic, s1) => pumpRun fire ic gs s1) =
            pumpRun fire ic2 gs ⟨s.sink.tail, s.cb, s.listening,
              s.trace ++ [Ev.push (some d0)]⟩ from rfl]
        obtain ⟨dd, h1, h2⟩ := IH ic2
          ⟨s.sink.tail, s.cb, s.listening, s.trace ++ [Ev.push (some d0)]⟩
        refine ⟨Ev.push (some d0) :: dd, ?_, ?_⟩
        · rw [h1]; simp
        · exact h2
      | false =>
        rw [pushYielded_isFull d0 s hh]
        cases fire with
        | true =>
          rw [show (match handleThunk true ic2 gs (none,
              (⟨s.sink.tail, s.cb, true,
                s.trace ++ [Ev.push (some d0)] ++ [Ev.listen]⟩ : St)) with
            | Sum.inl r => r
            | Sum.inr (ic, s1) => pumpRun true ic gs s1) =
              pumpRun true false gs ⟨s.sink.tail, s.cb, false,
                s.trace ++ [Ev.push (some d0)] ++ [Ev.listen] ++ [Ev.ready]⟩
              from rfl]
          obtain ⟨dd, h1, h2⟩ := IH false
            ⟨s.sink.tail, s.cb, false,
              s.trace ++ [Ev.push (some d0)] ++ [Ev.listen] ++ [Ev.ready]⟩
          refine ⟨Ev.push (some d0) :: Ev.listen :: Ev.ready :: dd, ?_, ?_⟩
          · rw [h1]; simp
          · exact h2
        | false =>
          rw [show (match handleThunk false ic2 gs (none,
              (⟨s.sink.tail, s.cb, true,
                s.trace ++ [Ev.push (some d0)] ++ [Ev.listen]⟩ : St)) with
            | Sum.inl r => r
            | Sum.inr (ic, s1) => pumpRun false ic gs s1) =
              PumpResult.suspended ⟨s.sink.tail, s.cb, true,
                s.trace ++ [Ev.push (some d0)] ++ [Ev.listen]⟩ gs from rfl]
          exact ⟨[Ev.push (some d0), Ev.listen], by simp [traceOf], rfl⟩

/-- From any state, the events one run of the loop appends to the trace
never contain a sink call after a closing `push(null)`. -/
theorem pumpRun_no_push_after_close (gen : List GenStep) (fire inChain : Bool)
    (s : St) :
    ∃ d, traceOf (pumpRun fire inChain gen s) = s.trace ++ d ∧
      noSinkCallAfterClose d = true := by
  induction gen generalizing inChain s with
  | nil =>
    obtain ⟨t, e, dc, h, ht, hall⟩ := finishCallback_trace (ctxOf inChain) none s
    refine ⟨dc, ?_, noSinkCallAfterClose_of_no_push dc hall⟩
    rw [pumpRun_nil, h]
    exact ht
  | cons g gs ih =>
    cases g with
    | throws e =>
      obtain ⟨t, e', dc, h, ht, hall⟩ :=
        finishCallback_trace (ctxOf inChain) (some e) s
      refine ⟨dc, ?_, noSinkCallAfterClose_of_no_push dc hall⟩
      rw [show pumpRun fire inChain (GenStep.throws e :: gs) s =
        finishCallback (ctxOf inChain) (some e) s from rfl, h]
      exact ht
    | result done v =>
      exact handle_yield_no_push_after_close gs done v fire inChain s ih
    | resultPromise done p =>
      cases p with
      | rejects e =>
        obtain ⟨t, e', dc, h, ht, hall⟩ :=
          finishCallback_trace CbCtx.chainCatch (some e) s
        refine ⟨dc, ?_, noSinkCallAfterClose_of_no_push dc hall⟩
        rw [show pumpRun fire inChain
            (GenStep.resultPromise done (Promise.rejects e) :: gs) s =
          finishCallback CbCtx.chainCatch (some e) s from rfl, h]
        exact ht
      | resolves v =>
        exact handle_yield_no_push_after_close gs done v fire true s ih
    | asyncResult p =>
      cases p with
      | rejects e =>
        obtain ⟨t, e', dc, h, ht, hall⟩ :=
          finishCallback_trace CbCtx.chainCatch (some e) s
        refine ⟨dc, ?_, noSinkCallAfterClose_of_no_push dc hall⟩
        rw [show pumpRun fire inChain
            (GenStep.asyncResult (Promise.rejects e) :: gs) s =
          finishCallback CbCtx.chainCatch (some e) s from rfl, h]
        exact ht
      | resolves dv =>
        exact handle_yield_no_push_after_close gs dv.1 dv.2 fire true s ih

/-- C8: once the closing `null` sentinel has been handed to the sink
(`Finished` status), the pump never calls the sink again for that
invocation — whatever the generator, the sink and the callback do — and in
the concrete closing scenario (the generator yields `null` while the sink
keeps accepting) `push(null)` happens exactly once, with nothing after it
but the single completion callback. -/
theorem no_sink_call_after_finished :
    (∀ (fire : Bool) (factoryThrows : Option Nat) (gen : List GenStep)
      (sink : List Bool) (cb : List (Option Nat)),
      noSinkCallAfterClose
        (traceOf (runPump fire factoryThrows gen sink cb)) = true)
    ∧ (∀ (items : List InflatedData) (rest : List GenStep),
      runPump true none (items.map yieldStep ++ GenStep.result false none :: rest)
        (List.replicate items.length true) [] =
      PumpResult.finished
        { sink := [], cb := [], listening := false,
          trace := items.map pushEv ++ [Ev.push none, Ev.callback none] }
        RunEnd.normal) := by
  constructor
  · intro fire factoryThrows gen sink cb
    cases factoryThrows with
    | some e =>
      cases hx : cb.headD none with
      | none =>
        rw [List.headD_eq_head?] at hx
        simp [runPump, _push, invokeCallback, hx, traceOf, noSinkCallAfterClose]
      | some t =>
        rw [List.headD_eq_head?] at hx
        simp [runPump, _push, invokeCallback, hx, traceOf, noSinkCallAfterClose]
    | none =>
      obtain ⟨d, h, hd⟩ := pumpRun_no_push_after_close gen fire false
        ⟨sink, cb, false, []⟩
      rw [show runPump fire none gen sink cb =
        pumpRun fire false gen ⟨sink, cb, false, []⟩ from rfl, h]
      simpa using hd
  · intro items rest
    have h := pumpRun_drain items true false (GenStep.result false none :: rest) []
      { sink := List.replicate items.length true, cb := [], listening := false,
        trace := [] } (by simp)
    simp [runPump, _push, h, pumpRun, _pushYieldedValue, _pushInflatedData,
      isFull, isNotFull, handleThunk, finishCallback, invokeCallback, ctxOf]
